import Mathlib

/-!
Verification development for the EnarcUI ArtBoard drawing component.

The embedding below is a shallow model of src/src/components/ArtBoard.tsx
(the self-contained reference implementation: object model, history manager,
hit-testing, interaction handlers and transform engine), plus the divergent
bounds recomputation found in src/src/hooks/useCanvasEvents.ts.  Coordinates
are modelled as rationals; React state updates inside one event handler are
modelled as a sequential state transformer, which matches the single-threaded
event loop semantics of the component.
-/

namespace ArtBoard

/-- A 2D position, as produced by getCanvasPos. -/
structure Point where
  x : ℚ
  y : ℚ
deriving DecidableEq, Repr

/-- Axis-aligned bounding box, as in the DrawingObject.bounds field. -/
structure Bounds where
  x : ℚ
  y : ℚ
  width : ℚ
  height : ℚ
deriving DecidableEq, Repr

/-- The type field of a DrawingObject: "line" | "circle" | "arrow" | "rect". -/
inductive ShapeType
  | line
  | circle
  | arrow
  | rect
deriving DecidableEq, Repr

/-- One drawable object, mirroring the DrawingObject interface of ArtBoard.tsx. -/
structure DrawingObject where
  type : ShapeType
  points : List Point
  stroke : String
  strokeWidth : ℚ
  bounds : Bounds
  selected : Bool
deriving DecidableEq, Repr

/-- The active tool: "brush" | "circle" | "arrow" | "rect" | "select" | "eraser". -/
inductive Tool
  | brush
  | circle
  | arrow
  | rect
  | select
  | eraser
deriving DecidableEq, Repr

/-- Minimum of a list of rationals; models Math.min(...xs) on a nonempty array. -/
def minList : List ℚ → ℚ
  | [] => 0
  | x :: xs => xs.foldl min x

/-- Maximum of a list of rationals; models Math.max(...xs) on a nonempty array. -/
def maxList : List ℚ → ℚ
  | [] => 0
  | x :: xs => xs.foldl max x

/-- calculateBounds from ArtBoard.tsx: bounding box of the points inflated by
half the stroke width on every side; empty point lists give the zero box. -/
def calculateBounds (points : List Point) (strokeWidth : ℚ) : Bounds :=
  if points.isEmpty then ⟨0, 0, 0, 0⟩
  else
    let xs := points.map Point.x
    let ys := points.map Point.y
    let minX := minList xs - strokeWidth / 2
    let maxX := maxList xs + strokeWidth / 2
    let minY := minList ys - strokeWidth / 2
    let maxY := maxList ys + strokeWidth / 2
    ⟨minX, minY, maxX - minX, maxY - minY⟩

/-- The bounds formula exactly as the specification states it:
x = min(xs) - w/2, y = min(ys) - w/2, width = (max(xs)-min(xs)) + w,
height = (max(ys)-min(ys)) + w.  Used to compare the code against the spec. -/
def specBounds (points : List Point) (w : ℚ) : Bounds :=
  let xs := points.map Point.x
  let ys := points.map Point.y
  ⟨minList xs - w / 2, minList ys - w / 2,
   maxList xs - minList xs + w, maxList ys - minList ys + w⟩

/-- The inline bounds recomputation in handleMouseMove of
src/src/hooks/useCanvasEvents.ts (lines 173-178): it uses only points[0] and
points[1] and applies no stroke-width inflation. -/
def eventsMoveBounds (points : List Point) : Bounds :=
  let p0 := points.getD 0 ⟨0, 0⟩
  let p1 := points.getD 1 ⟨0, 0⟩
  ⟨min p0.x p1.x, min p0.y p1.y, |p1.x - p0.x|, |p1.y - p0.y|⟩

/-- Squared distance from point p to the segment from a to b (standard
clamped-projection formula; degenerate segments fall back to the distance
to a). -/
def distSqPointSeg (p a b : Point) : ℚ :=
  let dx := b.x - a.x
  let dy := b.y - a.y
  let len2 := dx * dx + dy * dy
  if len2 = 0 then (p.x - a.x) ^ 2 + (p.y - a.y) ^ 2
  else
    let t0 := ((p.x - a.x) * dx + (p.y - a.y) * dy) / len2
    let t := max 0 (min 1 t0)
    (p.x - (a.x + t * dx)) ^ 2 + (p.y - (a.y + t * dy)) ^ 2

/-- Whether p lies within distance r of the polyline through the given points
(compared on squared distances).  A polyline with fewer than two points has no
stroked extent. -/
def withinDistOfPolyline (p : Point) (r : ℚ) : List Point → Bool
  | a :: b :: rest =>
    decide (distSqPointSeg p a b ≤ r ^ 2) || withinDistOfPolyline p r (b :: rest)
  | _ => false

/-- isPointOnLine from ArtBoard.tsx.  The source builds the polyline as a
canvas path with ctx.lineWidth = lineWidth and calls ctx.isPointInStroke,
which tests membership in the stroked region of width lineWidth, i.e. being
within lineWidth/2 of the polyline; that predicate is what is modelled here
(cap and join details idealized to the distance-to-polyline test). -/
def isPointOnLine (point : Point) (linePoints : List Point) (lineWidth : ℚ) : Bool :=
  withinDistOfPolyline point (lineWidth / 2) linePoints

/-- The bounding-box containment test used by handleMouseDown:
pos.x >= x && pos.x <= x + width && pos.y >= y && pos.y <= y + height. -/
def inBounds (pos : Point) (b : Bounds) : Bool :=
  decide (b.x ≤ pos.x) && decide (pos.x ≤ b.x + b.width) &&
    decide (b.y ≤ pos.y) && decide (pos.y ≤ b.y + b.height)

/-- The per-object hit test of handleMouseDown (both the select branch and the
eraser branch use it): bounding box first, then for "line" objects also
isPointOnLine with lineWidth = strokeWidth + 5. -/
def hitTestObj (pos : Point) (obj : DrawingObject) : Bool :=
  inBounds pos obj.bounds &&
    (if obj.type = ShapeType.line then isPointOnLine pos obj.points (obj.strokeWidth + 5)
     else true)

/-- The hit test exactly as the specification words it: the freehand-stroke
proximity requirement is that the point lie within strokeWidth + 5 UNITS of
the polyline (not within half of that).  Used to compare the code against the
spec. -/
def hitTestObjSpec (pos : Point) (obj : DrawingObject) : Bool :=
  inBounds pos obj.bounds &&
    (if obj.type = ShapeType.line then withinDistOfPolyline pos (obj.strokeWidth + 5) obj.points
     else true)

/-- The selection search of handleMouseDown:
objects.map((obj, index) => ...).reverse().find(hit).  Reversing the indexed
list and taking the first hit returns the hit object with the GREATEST index,
which is what this recursion computes. -/
def findClicked (objs : List DrawingObject) (pos : Point) : Option Nat :=
  match objs with
  | [] => none
  | o :: os =>
    match findClicked os pos with
    | some i => some (i + 1)
    | none => if hitTestObj pos o then some 0 else none

/-- The 8 resize-handle centers of a bounding box, in the order used by both
drawSelectionBox and getHandleAtPosition (indices 0-7). -/
def handlePositions (b : Bounds) : List Point :=
  [⟨b.x, b.y⟩,
   ⟨b.x + b.width / 2, b.y⟩,
   ⟨b.x + b.width, b.y⟩,
   ⟨b.x, b.y + b.height / 2⟩,
   ⟨b.x + b.width, b.y + b.height / 2⟩,
   ⟨b.x, b.y + b.height⟩,
   ⟨b.x + b.width / 2, b.y + b.height⟩,
   ⟨b.x + b.width, b.y + b.height⟩]

/-- The scan inside getHandleAtPosition: first handle whose 8x8 box (half
extent 4) contains the position. -/
def handleHitFrom (pos : Point) : Nat → List Point → Option Nat
  | _, [] => none
  | i, h :: rest =>
    if h.x - 4 ≤ pos.x ∧ pos.x ≤ h.x + 4 ∧ h.y - 4 ≤ pos.y ∧ pos.y ≤ h.y + 4 then some i
    else handleHitFrom pos (i + 1) rest

/-- getHandleAtPosition from ArtBoard.tsx. -/
def getHandleAtPosition (pos : Point) (obj : DrawingObject) : Option Nat :=
  handleHitFrom pos 0 (handlePositions obj.bounds)

/-- The indexed map objects.map((obj, i) => ({...obj, selected: i === index}))
of the select branch, with the running index made explicit. -/
def selectOnlyFrom (idx : Nat) : Nat → List DrawingObject → List DrawingObject
  | _, [] => []
  | i, o :: os => { o with selected := i == idx } :: selectOnlyFrom idx (i + 1) os

/-- Mark exactly the object at the given index selected and all others not. -/
def selectOnly (objs : List DrawingObject) (idx : Nat) : List DrawingObject :=
  selectOnlyFrom idx 0 objs

/-- objects.map(obj => ({...obj, selected: false})). -/
def deselectAll (objs : List DrawingObject) : List DrawingObject :=
  objs.map fun o => { o with selected := false }

/-- The mutable component state of ArtBoard.tsx that the handlers read and
write (canvas ref, colors of no further structure, and the background image
are outside the model; brushColor is carried since new objects copy it). -/
structure ArtBoardState where
  objects : List DrawingObject
  isDrawing : Bool
  tool : Tool
  brushColor : String
  brushRadius : ℚ
  selectedObject : Option Nat
  startPos : Option Point
  resizeHandle : Option Nat
  history : List (List DrawingObject)
  historyIndex : Int
deriving DecidableEq, Repr

/-- addToHistory from ArtBoard.tsx: history.slice(0, historyIndex + 1), append
a deep copy of newObjects, historyIndex + 1.  In this value-semantics model
the JSON round-trip deep copy is the identity. -/
def addToHistory (s : ArtBoardState) (newObjects : List DrawingObject) : ArtBoardState :=
  { s with
    history := s.history.take (s.historyIndex + 1).toNat ++ [newObjects]
    historyIndex := s.historyIndex + 1 }

/-- undo from ArtBoard.tsx: no-op unless historyIndex > 0, else decrement and
restore history[historyIndex - 1]. -/
def undo (s : ArtBoardState) : ArtBoardState :=
  if 0 < s.historyIndex then
    { s with
      historyIndex := s.historyIndex - 1
      objects := s.history.getD (s.historyIndex - 1).toNat [] }
  else s

/-- redo from ArtBoard.tsx: no-op unless historyIndex < history.length - 1,
else increment and restore history[historyIndex + 1]. -/
def redo (s : ArtBoardState) : ArtBoardState :=
  if s.historyIndex < (s.history.length : Int) - 1 then
    { s with
      historyIndex := s.historyIndex + 1
      objects := s.history.getD (s.historyIndex + 1).toNat [] }
  else s

/-- The resize-handle probe at the start of the select branch of
handleMouseDown: only when an object is currently selected. -/
def resizeHandleHit (s : ArtBoardState) (pos : Point) : Option Nat :=
  match s.selectedObject with
  | none => none
  | some i =>
    match s.objects.get? i with
    | none => none
    | some obj => getHandleAtPosition pos obj

/-- The shape type a drawing tool creates: tool === "brush" ? "line" : tool.
(select and eraser never reach the object-creating branch; their value here is
immaterial.) -/
def toolShape : Tool → ShapeType
  | Tool.brush => ShapeType.line
  | Tool.circle => ShapeType.circle
  | Tool.arrow => ShapeType.arrow
  | Tool.rect => ShapeType.rect
  | Tool.select => ShapeType.line
  | Tool.eraser => ShapeType.line

/-- handleMouseDown from ArtBoard.tsx.  Select tool: resize-handle probe, then
reverse z-order hit test, selecting the hit object or deselecting all.
Eraser tool: delete every hit object and commit a snapshot if any deletion
happened.  Drawing tools: append a fresh one-point object. -/
def handleMouseDown (s0 : ArtBoardState) (pos : Point) : ArtBoardState :=
  let s := { s0 with isDrawing := true, startPos := some pos }
  if s0.tool = Tool.select then
    match resizeHandleHit s0 pos with
    | some hIdx => { s with resizeHandle := some hIdx }
    | none =>
      match findClicked s0.objects pos with
      | some idx =>
        { s with objects := selectOnly s0.objects idx, selectedObject := some idx }
      | none =>
        { s with objects := deselectAll s0.objects, selectedObject := none }
  else if s0.tool = Tool.eraser then
    let newObjects := s0.objects.filter fun o => !hitTestObj pos o
    if newObjects.length ≠ s0.objects.length then
      addToHistory { s with objects := newObjects } newObjects
    else s
  else
    let newObject : DrawingObject :=
      { type := toolShape s0.tool
        points := [pos]
        stroke := s0.brushColor
        strokeWidth := s0.brushRadius
        bounds := ⟨pos.x, pos.y, 0, 0⟩
        selected := false }
    { s with objects := s0.objects ++ [newObject] }

/-- The per-handle bounding-box edit of the resize switch in handleMouseMove
(cases 0-7; unknown handles leave the box unchanged). -/
def resizeBoundsRaw (handle : Nat) (b : Bounds) (dx dy : ℚ) : Bounds :=
  if handle = 0 then ⟨b.x + dx, b.y + dy, b.width - dx, b.height - dy⟩
  else if handle = 1 then ⟨b.x, b.y + dy, b.width, b.height - dy⟩
  else if handle = 2 then ⟨b.x, b.y + dy, b.width + dx, b.height - dy⟩
  else if handle = 3 then ⟨b.x + dx, b.y, b.width - dx, b.height⟩
  else if handle = 4 then ⟨b.x, b.y, b.width + dx, b.height⟩
  else if handle = 5 then ⟨b.x + dx, b.y, b.width - dx, b.height + dy⟩
  else if handle = 6 then ⟨b.x, b.y, b.width, b.height + dy⟩
  else if handle = 7 then ⟨b.x, b.y, b.width + dx, b.height + dy⟩
  else b

/-- The negative width/height normalization that follows the switch: flip the
origin and take the absolute value. -/
def normalizeBounds (b : Bounds) : Bounds :=
  let b1 := if b.width < 0 then { b with x := b.x + b.width, width := |b.width| } else b
  if b1.height < 0 then { b1 with y := b1.y + b1.height, height := |b1.height| } else b1

/-- JS array index assignment arr[i] = v for i ≤ arr.length (the only shapes
the resize code produces): in-range writes replace, writing one past the end
appends. -/
def setIdx (l : List Point) (i : Nat) (v : Point) : List Point :=
  if i < l.length then l.set i v else l ++ [v]

/-- JS field assignment arr[i].x = v / arr[i].y = v: update the point at i in
place; reading a missing element would throw, modelled as leaving the list
unchanged. -/
def updIdx (l : List Point) (i : Nat) (f : Point → Point) : List Point :=
  match l.get? i with
  | some v => l.set i (f v)
  | none => l

/-- The "line" branch of the resize remap: proportional scaling with
independent X and Y factors newWidth/oldWidth and newHeight/oldHeight, each
guarded to 1 when the old extent is 0 (bw, bh are the old bounds origin and
extents captured before the switch). -/
def resizeLinePoints (bx byy bw bh : ℚ) (nb : Bounds) (pts : List Point) : List Point :=
  let scaleX := if bw ≠ 0 then nb.width / bw else 1
  let scaleY := if bh ≠ 0 then nb.height / bh else 1
  pts.map fun p => ⟨nb.x + (p.x - bx) * scaleX, nb.y + (p.y - byy) * scaleY⟩

/-- The "circle" branch of the resize remap: points[0] becomes the center of
the new box, points[1] the rim point at center.x + max(width,height)/2. -/
def resizeCirclePoints (nb : Bounds) (pts : List Point) : List Point :=
  let centerX := nb.x + nb.width / 2
  let centerY := nb.y + nb.height / 2
  let radius := max nb.width nb.height / 2
  setIdx (setIdx pts 0 ⟨centerX, centerY⟩) 1 ⟨centerX + radius, centerY⟩

/-- The "rect"/"arrow" branch of the resize remap: the per-handle endpoint
reassignments of the inner switch. -/
def resizeRectArrowPoints (handle : Nat) (nb : Bounds) (pts : List Point) : List Point :=
  if handle = 0 then setIdx (setIdx pts 0 ⟨nb.x, nb.y⟩) 1 ⟨nb.x + nb.width, nb.y + nb.height⟩
  else if handle = 1 then
    updIdx (updIdx pts 0 fun p => { p with y := nb.y }) 1 fun p => { p with y := nb.y + nb.height }
  else if handle = 2 then
    setIdx (updIdx pts 0 fun p => { p with y := nb.y }) 1 ⟨nb.x + nb.width, nb.y + nb.height⟩
  else if handle = 3 then
    updIdx (updIdx pts 0 fun p => { p with x := nb.x }) 1 fun p => { p with x := nb.x + nb.width }
  else if handle = 4 then updIdx pts 1 fun p => { p with x := nb.x + nb.width }
  else if handle = 5 then
    updIdx (updIdx pts 0 fun p => { p with x := nb.x }) 1 fun p => { p with y := nb.y + nb.height }
  else if handle = 6 then updIdx pts 1 fun p => { p with y := nb.y + nb.height }
  else if handle = 7 then setIdx pts 1 ⟨nb.x + nb.width, nb.y + nb.height⟩
  else pts

/-- The moving branch of handleMouseMove: translate the selected object's
bounds origin and every point by the pointer delta, then advance startPos. -/
def moveSelected (s : ArtBoardState) (i : Nat) (obj : DrawingObject)
    (pos start : Point) : ArtBoardState :=
  let dx := pos.x - start.x
  let dy := pos.y - start.y
  let newObj :=
    { obj with
      bounds := { obj.bounds with x := obj.bounds.x + dx, y := obj.bounds.y + dy }
      points := obj.points.map fun p => ⟨p.x + dx, p.y + dy⟩ }
  { s with objects := s.objects.set i newObj, startPos := some pos }

/-- The resizing branch of handleMouseMove: per-handle box edit, negative-size
normalization, per-kind point remap, store the new bounds, advance startPos. -/
def resizeSelected (s : ArtBoardState) (i : Nat) (obj : DrawingObject)
    (handle : Nat) (pos start : Point) : ArtBoardState :=
  let b := obj.bounds
  let dx := pos.x - start.x
  let dy := pos.y - start.y
  let nb := normalizeBounds (resizeBoundsRaw handle b dx dy)
  let newPts :=
    if obj.type = ShapeType.line then resizeLinePoints b.x b.y b.width b.height nb obj.points
    else if obj.type = ShapeType.circle then resizeCirclePoints nb obj.points
    else resizeRectArrowPoints handle nb obj.points
  let newObj := { obj with points := newPts, bounds := nb }
  { s with objects := s.objects.set i newObj, startPos := some pos }

/-- The drawing branch of handleMouseMove (any non-select tool): brush appends
the position to the last object's points, two-point kinds replace the points
with [startPos, pos], and the bounds are recomputed with calculateBounds. -/
def drawMove (s : ArtBoardState) (pos : Point) : ArtBoardState :=
  match s.objects.getLast? with
  | none => s
  | some cur =>
    let pts :=
      if s.tool = Tool.brush then cur.points ++ [pos]
      else
        match s.startPos with
        | some start => [start, pos]
        | none => cur.points
    let newCur := { cur with points := pts, bounds := calculateBounds pts cur.strokeWidth }
    { s with objects := s.objects.set (s.objects.length - 1) newCur }

/-- handleMouseMove from ArtBoard.tsx. -/
def handleMouseMove (s : ArtBoardState) (pos : Point) : ArtBoardState :=
  if s.isDrawing then
    if s.tool = Tool.select then
      match s.selectedObject with
      | some i =>
        match s.objects.get? i, s.startPos with
        | some obj, some start =>
          match s.resizeHandle with
          | some handle => resizeSelected s i obj handle pos start
          | none => moveSelected s i obj pos start
        | _, _ => s
      | none => s
    else drawMove s pos
  else s

/-- handleMouseUp from ArtBoard.tsx: commit a snapshot whenever isDrawing,
stop drawing, clear the resize handle, and for non-select tools deselect
everything. -/
def handleMouseUp (s : ArtBoardState) : ArtBoardState :=
  let s1 := if s.isDrawing then addToHistory s s.objects else s
  let s2 := { s1 with isDrawing := false, resizeHandle := none }
  if s.tool ≠ Tool.select then
    { s2 with objects := deselectAll s2.objects, selectedObject := none }
  else s2

/-- handleDelete from ArtBoard.tsx: remove the selected object, clear the
selection and commit a snapshot (a filter over indices is eraseIdx). -/
def handleDelete (s : ArtBoardState) : ArtBoardState :=
  match s.selectedObject with
  | none => s
  | some i =>
    let newObjects := s.objects.eraseIdx i
    addToHistory { s with objects := newObjects, selectedObject := none } newObjects

/-- handleClearCanvas from ArtBoard.tsx: on a nonempty scene, empty it and
commit a snapshot. -/
def handleClearCanvas (s : ArtBoardState) : ArtBoardState :=
  if s.objects.length > 0 then
    addToHistory { s with objects := [], selectedObject := none } []
  else s

/-- The inputs the component reacts to: normalized pointer events and the
operations exposed to the host UI. -/
inductive Event
  | down (pos : Point)
  | move (pos : Point)
  | up
  | undoEv
  | redoEv
  | setTool (t : Tool)
  | setColor (c : String)
  | setWidth (w : ℚ)
  | deleteSelected
  | clearAll
deriving Repr

/-- One step of the interaction state machine. -/
def step (s : ArtBoardState) : Event → ArtBoardState
  | Event.down pos => handleMouseDown s pos
  | Event.move pos => handleMouseMove s pos
  | Event.up => handleMouseUp s
  | Event.undoEv => undo s
  | Event.redoEv => redo s
  | Event.setTool t => { s with tool := t }
  | Event.setColor c => { s with brushColor := c }
  | Event.setWidth w => { s with brushRadius := w }
  | Event.deleteSelected => handleDelete s
  | Event.clearAll => handleClearCanvas s

/-- Run a sequence of events. -/
def run (s : ArtBoardState) (evs : List Event) : ArtBoardState :=
  evs.foldl step s

/-- The initial component state: empty scene, brush tool, black color, size 5,
empty history with index -1. -/
def initState : ArtBoardState :=
  { objects := []
    isDrawing := false
    tool := Tool.brush
    brushColor := "#000000"
    brushRadius := 5
    selectedObject := none
    startPos := none
    resizeHandle := none
    history := []
    historyIndex := -1 }

/-- One completed pointer gesture with a chosen tool: select the tool, press,
drag through the listed positions, release. -/
structure DrawGesture where
  tool : Tool
  start : Point
  moves : List Point
deriving Repr

/-- The event sequence of one gesture. -/
def gestureEvents (g : DrawGesture) : List Event :=
  Event.setTool g.tool :: Event.down g.start :: (g.moves.map Event.move ++ [Event.up])

/-- Run one gesture through the machine. -/
def runGesture (s : ArtBoardState) (g : DrawGesture) : ArtBoardState :=
  run s (gestureEvents g)

/-- Run a sequence of gestures through the machine. -/
def runGestures (s : ArtBoardState) : List DrawGesture → ArtBoardState
  | [] => s
  | g :: gs => runGestures (runGesture s g) gs

/-- The scene contents after each successive gesture. -/
def sceneTrace (s : ArtBoardState) : List DrawGesture → List (List DrawingObject)
  | [] => []
  | g :: gs => (runGesture s g).objects :: sceneTrace (runGesture s g) gs

/-- Iterated undo. -/
def undoN : Nat → ArtBoardState → ArtBoardState
  | 0, s => s
  | k + 1, s => undoN k (undo s)

/-- Iterated redo. -/
def redoN : Nat → ArtBoardState → ArtBoardState
  | 0, s => s
  | k + 1, s => redoN k (redo s)

/-- A tool whose gestures draw a new object (not select, not eraser). -/
def isDrawTool (t : Tool) : Prop :=
  t ≠ Tool.select ∧ t ≠ Tool.eraser

namespace RefModel

/-!
A reference-semantics model of the same component, needed where JavaScript
aliasing is observable.  Objects live on a heap (addresses are indices,
allocation appends); the scene and every history snapshot are lists of
addresses.  addToHistory deep-copies via the JSON round-trip, so a commit
allocates fresh cells; undo, however, installs the stored snapshot ARRAY
itself as the live scene (setObjects(history[historyIndex - 1]) in
ArtBoard.tsx copies no objects), and the moving branch of handleMouseMove
mutates the selected object in place (obj.bounds.x += dx on the object
reached through the shared array).
-/

/-- Value read for a dangling address (never reached in the modelled runs). -/
def defaultObject : DrawingObject :=
  { type := ShapeType.line
    points := []
    stroke := ""
    strokeWidth := 0
    bounds := ⟨0, 0, 0, 0⟩
    selected := false }

/-- Heap, live scene and history stack, all sharing addresses. -/
structure RefState where
  heap : List DrawingObject
  scene : List Nat
  history : List (List Nat)
  historyIndex : Int
deriving DecidableEq, Repr

/-- In-place update of the heap cell at an address. -/
def modifyAt (l : List DrawingObject) (a : Nat) (f : DrawingObject → DrawingObject) :
    List DrawingObject :=
  match l.get? a with
  | some v => l.set a (f v)
  | none => l

/-- The object values a stored snapshot currently denotes. -/
def snapshotValue (s : RefState) (k : Nat) : List DrawingObject :=
  (s.history.getD k []).map fun a => s.heap.getD a defaultObject

/-- addToHistory with the JSON.parse(JSON.stringify(...)) deep copy made
explicit: fresh heap cells holding copies of the live scene's objects. -/
def commitRef (s : RefState) : RefState :=
  let base := s.heap.length
  let copies := s.scene.map fun a => s.heap.getD a defaultObject
  let newAddrs := (List.range s.scene.length).map fun k => base + k
  { s with
    heap := s.heap ++ copies
    history := s.history.take (s.historyIndex + 1).toNat ++ [newAddrs]
    historyIndex := s.historyIndex + 1 }

/-- undo: setObjects(history[historyIndex - 1]) — the snapshot address list
becomes the live scene, with no copying. -/
def undoRef (s : RefState) : RefState :=
  if 0 < s.historyIndex then
    { s with
      historyIndex := s.historyIndex - 1
      scene := s.history.getD (s.historyIndex - 1).toNat [] }
  else s

/-- A completed draw gesture: allocate the new object and append its address
to the scene (the intermediate mouse-move geometry is irrelevant here). -/
def drawRef (s : RefState) (obj : DrawingObject) : RefState :=
  { s with heap := s.heap ++ [obj], scene := s.scene ++ [s.heap.length] }

/-- The moving branch of handleMouseMove on the object at scene position i:
obj.bounds.x += dx, obj.bounds.y += dy and the point translation are in-place
writes through the scene's object reference. -/
def moveRef (s : RefState) (i : Nat) (dx dy : ℚ) : RefState :=
  match s.scene.get? i with
  | none => s
  | some addr =>
    { s with
      heap := modifyAt s.heap addr fun o =>
        { o with
          bounds := { o.bounds with x := o.bounds.x + dx, y := o.bounds.y + dy }
          points := o.points.map fun p => ⟨p.x + dx, p.y + dy⟩ } }

/-- Initial state: empty heap, scene and history. -/
def refInit : RefState :=
  { heap := [], scene := [], history := [], historyIndex := -1 }

/-- The first drawn object of the aliasing scenario. -/
def objA : DrawingObject :=
  { type := ShapeType.line
    points := [⟨0, 0⟩, ⟨10, 10⟩]
    stroke := "#000000"
    strokeWidth := 5
    bounds := ⟨0, 0, 10, 10⟩
    selected := false }

/-- The second drawn object of the aliasing scenario. -/
def objB : DrawingObject :=
  { type := ShapeType.rect
    points := [⟨20, 20⟩, ⟨30, 30⟩]
    stroke := "#000000"
    strokeWidth := 5
    bounds := ⟨20, 20, 10, 10⟩
    selected := false }

/-- State after: draw A, commit; draw B, commit. -/
def refAfterCommits : RefState :=
  commitRef (drawRef (commitRef (drawRef refInit objA)) objB)

/-- ...then undo once (live scene now aliases snapshot 0) and complete a move
gesture of object 0 by (10, 0). -/
def refAfterMove : RefState :=
  moveRef (undoRef refAfterCommits) 0 10 0

end RefModel

/-!  Theorems about the embedded program, one block per claim.  -/

/-- C7 counterexample: one bounding variant is NOT used consistently.  For the
freehand stroke through (0,0), (10,0), (5,20) with strokeWidth 4, the bounds
recomputed by useCanvasEvents' mouse-move handler differ from ArtBoard's
calculateBounds, and also from the spec's formula both with the stated
half-width inflation and with the stroke-agnostic zero inflation (the hook
ignores every point beyond the first two). -/
theorem C7_counterexample :
    eventsMoveBounds [⟨0, 0⟩, ⟨10, 0⟩, ⟨5, 20⟩] ≠ calculateBounds [⟨0, 0⟩, ⟨10, 0⟩, ⟨5, 20⟩] 4 ∧
    eventsMoveBounds [⟨0, 0⟩, ⟨10, 0⟩, ⟨5, 20⟩] ≠ specBounds [⟨0, 0⟩, ⟨10, 0⟩, ⟨5, 20⟩] 4 ∧
    eventsMoveBounds [⟨0, 0⟩, ⟨10, 0⟩, ⟨5, 20⟩] ≠ specBounds [⟨0, 0⟩, ⟨10, 0⟩, ⟨5, 20⟩] 0 := by
  refine ⟨?_, ?_, ?_⟩ <;>
    norm_num [eventsMoveBounds, calculateBounds, specBounds, minList, maxList, Bounds.mk.injEq]

/-- C7 (amended): for every object with a nonempty point list ArtBoard's
calculateBounds equals the spec's formula {min(xs) - w/2, min(ys) - w/2,
(max-min)+w, (max-min)+w}, and the rectangle example [(10,10),(50,50)] with
strokeWidth 0 yields {10,10,40,40}. -/
theorem C7_bounds (points : List Point) (w : ℚ) (hne : points ≠ []) :
    calculateBounds points w = specBounds points w ∧
    calculateBounds [⟨10, 10⟩, ⟨50, 50⟩] 0 = (⟨10, 10, 40, 40⟩ : Bounds) := by
  constructor
  · obtain ⟨p, rest, rfl⟩ := List.exists_cons_of_ne_nil hne
    simp only [calculateBounds, specBounds, List.isEmpty_cons, Bool.false_eq_true, if_false,
      Bounds.mk.injEq]
    refine ⟨by ring_nf, by ring_nf, by ring, by ring⟩
  · norm_num [calculateBounds, minList, maxList]

/-- Witness for C7_bounds at the one-point list [(3,4)] with width 2. -/
theorem C7_bounds_witness :
    calculateBounds [(⟨3, 4⟩ : Point)] 2 = specBounds [(⟨3, 4⟩ : Point)] 2 ∧
    calculateBounds [⟨10, 10⟩, ⟨50, 50⟩] 0 = (⟨10, 10, 40, 40⟩ : Bounds) :=
  C7_bounds [⟨3, 4⟩] 2 (by simp)

/-- C9: resizing a "line" object whose old bounds have zero width (resp.
height) uses scale factor 1 for that axis instead of dividing by zero, so the
remapped coordinates are the plain offsets from the new box origin. -/
theorem C9_degenerate_scale (bx byy bw bh : ℚ) (nb : Bounds) (pts : List Point) :
    (bw = 0 → resizeLinePoints bx byy bw bh nb pts =
      pts.map fun p => ⟨nb.x + (p.x - bx) * 1,
        nb.y + (p.y - byy) * (if bh ≠ 0 then nb.height / bh else 1)⟩) ∧
    (bh = 0 → resizeLinePoints bx byy bw bh nb pts =
      pts.map fun p => ⟨nb.x + (p.x - bx) * (if bw ≠ 0 then nb.width / bw else 1),
        nb.y + (p.y - byy) * 1⟩) := by
  constructor
  · rintro rfl
    simp [resizeLinePoints]
  · rintro rfl
    simp [resizeLinePoints]

/-- Witness for C9_degenerate_scale: a degenerate old box of zero width. -/
theorem C9_degenerate_scale_witness :
    resizeLinePoints 1 2 0 3 ⟨4, 5, 6, 7⟩ [⟨8, 9⟩] =
      [⟨4 + (8 - 1) * 1, 5 + (9 - 2) * (if (3 : ℚ) ≠ 0 then (7 : ℚ) / 3 else 1)⟩] :=
  (C9_degenerate_scale 1 2 0 3 ⟨4, 5, 6, 7⟩ [⟨8, 9⟩]).1 rfl

/-- C2 is violated by the code: after committing snapshot 0 = [objA] and
snapshot 1, one undo() installs snapshot 0's array as the live scene without
copying, and the following move gesture's in-place mutation changes the stored
snapshot 0 itself — it no longer equals the scene that was committed. -/
theorem C2_snapshot_mutated :
    RefModel.snapshotValue RefModel.refAfterCommits 0 = [RefModel.objA] ∧
    RefModel.snapshotValue RefModel.refAfterMove 0 ≠ [RefModel.objA] := by
  constructor
  · norm_num [RefModel.refAfterCommits, RefModel.snapshotValue, RefModel.commitRef,
      RefModel.drawRef, RefModel.refInit, RefModel.modifyAt, List.range_succ]
  · norm_num [RefModel.refAfterMove, RefModel.refAfterCommits, RefModel.snapshotValue,
      RefModel.commitRef, RefModel.drawRef, RefModel.refInit, RefModel.undoRef,
      RefModel.moveRef, RefModel.modifyAt, List.range_succ, RefModel.objA,
      DrawingObject.mk.injEq, Bounds.mk.injEq]

/-- C1 counterexample: a single completed brush gesture from the empty initial
state, followed by one undo(), does NOT return the Scene to empty — the empty
initial Scene is never committed to the history, and undo at index 0 is a
no-op. -/
theorem C1_counterexample :
    (undoN 1 (runGestures initState [⟨Tool.brush, ⟨0, 0⟩, [⟨10, 10⟩]⟩])).objects ≠ [] := by
  norm_num +decide [undoN, runGestures, runGesture, gestureEvents, run, step, initState,
    handleMouseDown, handleMouseMove, handleMouseUp, drawMove, addToHistory, undo,
    deselectAll, toolShape, calculateBounds, minList, maxList, resizeHandleHit,
    findClicked]

/-- C4 counterexample: a completed select-tool click on empty canvas leaves
the Scene unchanged (still empty) yet commits a history snapshot — the commit
at pointer-up is unconditional on isDrawing, which every pointer-down sets. -/
theorem C4_counterexample :
    (run initState [Event.setTool Tool.select, Event.down ⟨0, 0⟩, Event.up]).objects =
      initState.objects ∧
    (run initState [Event.setTool Tool.select, Event.down ⟨0, 0⟩, Event.up]).history.length
      = 1 := by
  constructor <;>
    norm_num +decide [run, step, initState, handleMouseDown, handleMouseUp, addToHistory,
      deselectAll, resizeHandleHit, findClicked]

/-- Membership in a deselected scene forces selected = false. -/
lemma mem_deselectAll {o : DrawingObject} {l : List DrawingObject}
    (h : o ∈ deselectAll l) : o.selected = false := by
  simp only [deselectAll, List.mem_map] at h
  obtain ⟨a, _, rfl⟩ := h
  rfl

/-- The diagonal freehand stroke of the C5 counterexample: (0,0) to (50,50),
strokeWidth 4, bounds as calculateBounds derives them. -/
def strokeCE : DrawingObject :=
  { type := ShapeType.line
    points := [⟨0, 0⟩, ⟨50, 50⟩]
    stroke := "#000000"
    strokeWidth := 4
    bounds := calculateBounds [⟨0, 0⟩, ⟨50, 50⟩] 4
    selected := false }

/-- C5 counterexample: the query point (30,22) lies inside the stroke's
bounds and within strokeWidth + 5 = 9 units of the polyline (distance
sqrt 32 < 9), so the claim predicts a hit; the code's hit test
(isPointInStroke with lineWidth strokeWidth + 5, i.e. distance at most
(strokeWidth+5)/2 = 4.5) misses. -/
theorem C5_counterexample :
    hitTestObjSpec ⟨30, 22⟩ strokeCE = true ∧
    findClicked [strokeCE] ⟨30, 22⟩ = none := by
  constructor
  · norm_num +decide [hitTestObjSpec, strokeCE, inBounds, withinDistOfPolyline,
      distSqPointSeg, calculateBounds, minList, maxList]
  · norm_num +decide [findClicked, hitTestObj, strokeCE, inBounds, isPointOnLine,
      withinDistOfPolyline, distSqPointSeg, calculateBounds, minList, maxList]

/-- C5 (amended): the selection search returns the hit object of greatest
index (reverse z-order, last-drawn first), where a hit requires bounds
containment and, for "line" objects, proximity within (strokeWidth + 5)/2
of the polyline; every object above the returned one misses, and a none
result means every object misses. -/
theorem C5_hit_test (objs : List DrawingObject) (pos : Point) :
    (∀ i, findClicked objs pos = some i →
      ∃ h : i < objs.length,
        hitTestObj pos (objs.get ⟨i, h⟩) = true ∧
        ∀ j (hj : j < objs.length), i < j → hitTestObj pos (objs.get ⟨j, hj⟩) = false) ∧
    (findClicked objs pos = none →
      ∀ j (hj : j < objs.length), hitTestObj pos (objs.get ⟨j, hj⟩) = false) := by
  induction objs with
  | nil =>
    refine ⟨fun i hi => ?_, fun _ j hj => absurd hj (by simp)⟩
    simp [findClicked] at hi
  | cons o os ih =>
    constructor
    · intro i hi
      unfold findClicked at hi
      cases hfc : findClicked os pos with
      | some k =>
        rw [hfc] at hi
        obtain rfl : k + 1 = i := by simpa using hi
        obtain ⟨hk, hhit, hafter⟩ := ih.1 k hfc
        refine ⟨by simpa using Nat.succ_lt_succ hk, by simpa using hhit, ?_⟩
        intro j hj hlt
        match j, hj, hlt with
        | j0 + 1, hj, hlt =>
          exact (by simpa using hafter j0 (by simpa using hj) (Nat.lt_of_succ_lt_succ hlt))
      | none =>
        rw [hfc] at hi
        by_cases h0 : hitTestObj pos o
        · rw [if_pos h0] at hi
          obtain rfl : 0 = i := by simpa using hi
          refine ⟨by simp, by simpa using h0, ?_⟩
          intro j hj hlt
          match j, hj, hlt with
          | j0 + 1, hj, _ =>
            exact (by simpa using ih.2 hfc j0 (by simpa using hj))
        · rw [if_neg h0] at hi
          exact absurd hi (by simp)
    · intro hnone j hj
      unfold findClicked at hnone
      cases hfc : findClicked os pos with
      | some k => rw [hfc] at hnone; exact absurd hnone (by simp)
      | none =>
        rw [hfc] at hnone
        by_cases h0 : hitTestObj pos o
        · rw [if_pos h0] at hnone; exact absurd hnone (by simp)
        · match j, hj with
          | 0, _ => simpa using h0
          | j0 + 1, hj => exact (by simpa using ih.2 hfc j0 (by simpa using hj))

/-- Witness for C5_hit_test: the point (26,26) on the stroke itself is found
at index 0 of the one-object scene. -/
theorem C5_hit_test_witness :
    ∃ h : 0 < ([strokeCE] : List DrawingObject).length,
      hitTestObj ⟨26, 26⟩ (([strokeCE] : List DrawingObject).get ⟨0, h⟩) = true ∧
      ∀ j (hj : j < ([strokeCE] : List DrawingObject).length), 0 < j →
        hitTestObj ⟨26, 26⟩ (([strokeCE] : List DrawingObject).get ⟨j, hj⟩) = false :=
  (C5_hit_test [strokeCE] ⟨26, 26⟩).1 0
    (by norm_num +decide [findClicked, hitTestObj, strokeCE, inBounds, isPointOnLine,
      withinDistOfPolyline, distSqPointSeg, calculateBounds, minList, maxList])

/-- C10: after pointer-up completes a gesture with any non-select tool
active, every object in the Scene has selected = false and the
selected-object index is cleared. -/
theorem C10_deselect_on_up (evs : List Event)
    (h : (run initState evs).tool ≠ Tool.select) :
    (∀ o ∈ (step (run initState evs) Event.up).objects, o.selected = false) ∧
    (step (run initState evs) Event.up).selectedObject = none := by
  generalize run initState evs = s at h
  constructor
  · intro o ho
    simp only [step, handleMouseUp, if_pos h] at ho
    exact mem_deselectAll ho
  · simp only [step, handleMouseUp, if_pos h]

/-- Witness for C10_deselect_on_up: pointer-up directly in the initial state
(brush tool). -/
theorem C10_deselect_on_up_witness :
    (∀ o ∈ (step (run initState []) Event.up).objects, o.selected = false) ∧
    (step (run initState []) Event.up).selectedObject = none :=
  C10_deselect_on_up [] (by decide)

/-- C4 (amended): a snapshot is committed at pointer-up precisely when
isDrawing is set — i.e. whenever a pointer-down opened the gesture —
regardless of whether the gesture changed the Scene: the committed snapshot
is appended after truncation at the cursor.  When isDrawing is not set,
pointer-up leaves the history unchanged. -/
theorem C4_commit_on_up (evs : List Event) :
    ((run initState evs).isDrawing = true →
      (step (run initState evs) Event.up).history =
        (run initState evs).history.take ((run initState evs).historyIndex + 1).toNat ++
          [(run initState evs).objects]) ∧
    ((run initState evs).isDrawing = false →
      (step (run initState evs) Event.up).history = (run initState evs).history) := by
  generalize run initState evs = s
  constructor
  · intro h
    by_cases ht : s.tool = Tool.select <;>
      simp [step, handleMouseUp, addToHistory, h, ht]
  · intro h
    by_cases ht : s.tool = Tool.select <;>
      simp [step, handleMouseUp, h, ht]

/-- Witness for C4_commit_on_up: a pointer-down alone sets isDrawing, and the
following pointer-up commits the (unchanged) scene. -/
theorem C4_commit_on_up_witness :
    (step (run initState [Event.down ⟨0, 0⟩]) Event.up).history =
      (run initState [Event.down ⟨0, 0⟩]).history.take
          ((run initState [Event.down ⟨0, 0⟩]).historyIndex + 1).toNat ++
        [(run initState [Event.down ⟨0, 0⟩]).objects] :=
  (C4_commit_on_up [Event.down ⟨0, 0⟩]).1 (by decide)

/-- The history-cursor invariant every handler maintains: the cursor stays in
[-1, length - 1]. -/
def HistInv (s : ArtBoardState) : Prop :=
  -1 ≤ s.historyIndex ∧ s.historyIndex ≤ (s.history.length : Int) - 1

/-- After a commit the cursor addresses the new last snapshot. -/
lemma addToHistory_cursor {s : ArtBoardState} (h : HistInv s) (objs : List DrawingObject) :
    (addToHistory s objs).historyIndex =
      ((addToHistory s objs).history.length : Int) - 1 := by
  obtain ⟨h1, h2⟩ := h
  simp only [addToHistory, List.length_append, List.length_take, List.length_cons,
    List.length_nil]
  omega

/-- Commits preserve the cursor invariant. -/
lemma histInv_addToHistory {s : ArtBoardState} (h : HistInv s) (objs : List DrawingObject) :
    HistInv (addToHistory s objs) := by
  refine ⟨?_, le_of_eq (addToHistory_cursor h objs)⟩
  have h1 := h.1
  simp only [addToHistory]
  omega

/-- Every machine step preserves the cursor invariant. -/
lemma histInv_step {s : ArtBoardState} (h : HistInv s) (e : Event) : HistInv (step s e) := by
  obtain ⟨h1, h2⟩ := h
  cases e with
  | down pos =>
    simp only [step, handleMouseDown]
    split
    · split
      · exact ⟨h1, h2⟩
      · split
        · exact ⟨h1, h2⟩
        · exact ⟨h1, h2⟩
    · split
      · split
        · exact histInv_addToHistory ⟨h1, h2⟩ _
        · exact ⟨h1, h2⟩
      · exact ⟨h1, h2⟩
  | move pos =>
    simp only [step, handleMouseMove]
    split
    · split
      · split
        · split
          · split
            · exact ⟨h1, h2⟩
            · exact ⟨h1, h2⟩
          · exact ⟨h1, h2⟩
        · exact ⟨h1, h2⟩
      · simp only [drawMove]
        split
        · exact ⟨h1, h2⟩
        · exact ⟨h1, h2⟩
    · exact ⟨h1, h2⟩
  | up =>
    have hbase : HistInv (if s.isDrawing then addToHistory s s.objects else s) := by
      by_cases hd : s.isDrawing
      · rw [if_pos hd]; exact histInv_addToHistory ⟨h1, h2⟩ _
      · rw [if_neg hd]; exact ⟨h1, h2⟩
    simp only [step, handleMouseUp]
    by_cases ht : s.tool ≠ Tool.select
    · rw [if_pos ht]; exact hbase
    · rw [if_neg ht]; exact hbase
  | undoEv =>
    simp only [step, undo]
    by_cases hc : 0 < s.historyIndex
    · rw [if_pos hc]
      refine ⟨?_, ?_⟩ <;> simp only [] <;> omega
    · rw [if_neg hc]; exact ⟨h1, h2⟩
  | redoEv =>
    simp only [step, redo]
    by_cases hc : s.historyIndex < (s.history.length : Int) - 1
    · rw [if_pos hc]
      refine ⟨?_, ?_⟩ <;> simp only [] <;> omega
    · rw [if_neg hc]; exact ⟨h1, h2⟩
  | setTool t => exact ⟨h1, h2⟩
  | setColor c => exact ⟨h1, h2⟩
  | setWidth w => exact ⟨h1, h2⟩
  | deleteSelected =>
    simp only [step, handleDelete]
    cases hsel : s.selectedObject with
    | none => exact ⟨h1, h2⟩
    | some i => exact histInv_addToHistory ⟨h1, h2⟩ _
  | clearAll =>
    simp only [step, handleClearCanvas]
    by_cases hc : s.objects.length > 0
    · rw [if_pos hc]; exact histInv_addToHistory ⟨h1, h2⟩ _
    · rw [if_neg hc]; exact ⟨h1, h2⟩

/-- The cursor invariant holds in every reachable state. -/
lemma histInv_run (evs : List Event) : HistInv (run initState evs) := by
  have hinit : HistInv initState := ⟨by decide, by decide⟩
  suffices hgen : ∀ s, HistInv s → HistInv (run s evs) from hgen initState hinit
  induction evs with
  | nil => exact fun s hs => hs
  | cons e t ih => exact fun s hs => ih (step s e) (histInv_step hs e)

/-- C3: in every reachable state (in particular after any number of undos), a
history commit truncates the stack to indices [0, cursor], appends the new
snapshot, leaves the cursor at the new last index, and makes redo() a no-op. -/
theorem C3_commit (evs : List Event) (newObjs : List DrawingObject) :
    (addToHistory (run initState evs) newObjs).history =
      (run initState evs).history.take ((run initState evs).historyIndex + 1).toNat ++
        [newObjs] ∧
    (addToHistory (run initState evs) newObjs).historyIndex =
      ((addToHistory (run initState evs) newObjs).history.length : Int) - 1 ∧
    redo (addToHistory (run initState evs) newObjs) =
      addToHistory (run initState evs) newObjs := by
  have h := histInv_run evs
  refine ⟨rfl, addToHistory_cursor h newObjs, ?_⟩
  have hcur := addToHistory_cursor h newObjs
  have hno : ¬ (addToHistory (run initState evs) newObjs).historyIndex <
      ((addToHistory (run initState evs) newObjs).history.length : Int) - 1 := by omega
  unfold redo
  rw [if_neg hno]

/-- A selected circle with bounds {0,0,40,40}, mid-resize via the bottom-right
handle (index 7) anchored at that handle's position (40,40). -/
def circleResizeState : ArtBoardState :=
  { objects := [{ type := ShapeType.circle
                  points := [⟨20, 20⟩, ⟨40, 20⟩]
                  stroke := "#000000"
                  strokeWidth := 0
                  bounds := ⟨0, 0, 40, 40⟩
                  selected := true }]
    isDrawing := true
    tool := Tool.select
    brushColor := "#000000"
    brushRadius := 5
    selectedObject := some 0
    startPos := some ⟨40, 40⟩
    resizeHandle := some 7
    history := []
    historyIndex := -1 }

/-- C8: the circle resize remap sets points[0] to the center of the
normalized new box and points[1] to (center.x + max(width,height)/2,
center.y); dragging the bottom-right handle of a {0,0,40,40} circle to
(80,80) yields bounds {0,0,80,80}, center (40,40) and rim point (80,40). -/
theorem C8_circle_resize (nb : Bounds) (pts : List Point) (h : pts.length = 2) :
    resizeCirclePoints nb pts =
      [⟨nb.x + nb.width / 2, nb.y + nb.height / 2⟩,
       ⟨nb.x + nb.width / 2 + max nb.width nb.height / 2, nb.y + nb.height / 2⟩] ∧
    ((step circleResizeState (Event.move ⟨80, 80⟩)).objects.map DrawingObject.points =
        [[⟨40, 40⟩, ⟨80, 40⟩]] ∧
      (step circleResizeState (Event.move ⟨80, 80⟩)).objects.map DrawingObject.bounds =
        [⟨0, 0, 80, 80⟩]) := by
  constructor
  · obtain ⟨a, b, rfl⟩ := List.length_eq_two.mp h
    simp [resizeCirclePoints, setIdx, List.set]
  · constructor <;>
      norm_num +decide [step, handleMouseMove, circleResizeState, resizeSelected,
        resizeBoundsRaw, normalizeBounds, resizeCirclePoints, setIdx, List.set]

/-- Witness for C8_circle_resize at the box {0,0,80,80} and a two-point list. -/
theorem C8_circle_resize_witness :
    resizeCirclePoints ⟨0, 0, 80, 80⟩ [⟨1, 1⟩, ⟨2, 2⟩] =
      [⟨(0 : ℚ) + 80 / 2, (0 : ℚ) + 80 / 2⟩,
       ⟨(0 : ℚ) + 80 / 2 + max (80 : ℚ) 80 / 2, (0 : ℚ) + 80 / 2⟩] ∧
    ((step circleResizeState (Event.move ⟨80, 80⟩)).objects.map DrawingObject.points =
        [[⟨40, 40⟩, ⟨80, 40⟩]] ∧
      (step circleResizeState (Event.move ⟨80, 80⟩)).objects.map DrawingObject.bounds =
        [⟨0, 0, 80, 80⟩]) :=
  C8_circle_resize ⟨0, 0, 80, 80⟩ [⟨1, 1⟩, ⟨2, 2⟩] rfl

/-- Number of selected objects in a scene. -/
def countSelected (objs : List DrawingObject) : Nat :=
  (objs.filter fun o => o.selected).length

lemma countSelected_nil : countSelected [] = 0 := rfl

lemma countSelected_cons (o : DrawingObject) (l : List DrawingObject) :
    countSelected (o :: l) = (if o.selected then 1 else 0) + countSelected l := by
  by_cases h : o.selected
  · simp only [countSelected, List.filter_cons, h, if_true, ite_true, List.length_cons]
    omega
  · simp [countSelected, List.filter_cons, h]

lemma countSelected_append (l1 l2 : List DrawingObject) :
    countSelected (l1 ++ l2) = countSelected l1 + countSelected l2 := by
  simp [countSelected, List.filter_append]

lemma countSelected_sublist {l1 l2 : List DrawingObject} (h : l1.Sublist l2) :
    countSelected l1 ≤ countSelected l2 :=
  (h.filter _).length_le

lemma countSelected_deselectAll (l : List DrawingObject) :
    countSelected (deselectAll l) = 0 := by
  induction l with
  | nil => rfl
  | cons o t ih => simpa [deselectAll, countSelected_cons] using ih

lemma countSelected_selectOnlyFrom (idx : Nat) (l : List DrawingObject) :
    ∀ i : Nat, countSelected (selectOnlyFrom idx i l) =
      if i ≤ idx ∧ idx < i + l.length then 1 else 0 := by
  induction l with
  | nil =>
    intro i
    simp only [selectOnlyFrom, countSelected_nil, List.length_nil, Nat.add_zero]
    rw [if_neg (by omega)]
  | cons o t ih =>
    intro i
    simp only [selectOnlyFrom, countSelected_cons, List.length_cons, beq_iff_eq]
    rw [ih (i + 1)]
    split_ifs <;> omega

lemma countSelected_selectOnly {l : List DrawingObject} {idx : Nat} (h : idx < l.length) :
    countSelected (selectOnly l idx) = 1 := by
  rw [selectOnly, countSelected_selectOnlyFrom idx l 0, if_pos]
  exact ⟨Nat.zero_le idx, by omega⟩

lemma countSelected_selectOnly_le (l : List DrawingObject) (idx : Nat) :
    countSelected (selectOnly l idx) ≤ 1 := by
  rw [selectOnly, countSelected_selectOnlyFrom idx l 0]
  split_ifs <;> omega

lemma countSelected_set {l : List DrawingObject} {i : Nat} {o : DrawingObject}
    (h : ∀ v, l.get? i = some v → o.selected = v.selected) :
    countSelected (l.set i o) = countSelected l := by
  induction l generalizing i with
  | nil => simp
  | cons a t ih =>
    cases i with
    | zero =>
      have hsel : o.selected = a.selected := h a rfl
      simp [List.set, countSelected_cons, hsel]
    | succ n =>
      have ht := ih (i := n) (fun v hv => h v hv)
      simp [List.set, countSelected_cons, ht]

lemma countSelected_getD_le {h : List (List DrawingObject)} {k : Nat}
    (hmem : ∀ snap ∈ h, countSelected snap ≤ 1) :
    countSelected (h.getD k []) ≤ 1 := by
  by_cases hk : k < h.length
  · rw [List.getD_eq_getElem _ _ hk]
    exact hmem _ (List.getElem_mem hk)
  · rw [List.getD_eq_default]
    · exact Nat.zero_le 1
    · omega

lemma getLast?_get? : ∀ {l : List DrawingObject} {a : DrawingObject},
    l.getLast? = some a → l.get? (l.length - 1) = some a := by
  intro l
  induction l with
  | nil => intro a h; simp at h
  | cons o t ih =>
    intro a h
    cases t with
    | nil =>
      simp only [List.getLast?_singleton, Option.some.injEq] at h
      subst h
      rfl
    | cons b u =>
      rw [List.getLast?_cons_cons] at h
      have hres := ih h
      simpa [List.length_cons] using hres

lemma findClicked_lt : ∀ {l : List DrawingObject} {pos : Point} {i : Nat},
    findClicked l pos = some i → i < l.length := by
  intro l
  induction l with
  | nil => intro pos i h; simp [findClicked] at h
  | cons o t ih =>
    intro pos i h
    rw [findClicked] at h
    cases hfc : findClicked t pos with
    | some k =>
      rw [hfc] at h
      obtain rfl : k + 1 = i := by simpa using h
      simpa using Nat.succ_lt_succ (ih hfc)
    | none =>
      rw [hfc] at h
      by_cases h0 : hitTestObj pos o
      · rw [if_pos h0] at h
        obtain rfl : 0 = i := by simpa using h
        simp
      · rw [if_neg h0] at h
        exact absurd h (by simp)

lemma selectOnlyFrom_get? (idx : Nat) (l : List DrawingObject) :
    ∀ i j : Nat, (selectOnlyFrom idx i l).get? j =
      (l.get? j).map fun o => { o with selected := (i + j) == idx } := by
  induction l with
  | nil => intro i j; simp [selectOnlyFrom]
  | cons o t ih =>
    intro i j
    cases j with
    | zero => simp [selectOnlyFrom]
    | succ n =>
      have h := ih (i + 1) n
      have harith : i + 1 + n = i + (n + 1) := by omega
      rw [harith] at h
      simpa [selectOnlyFrom] using h

/-- The at-most-one-selected invariant, over the live scene and every stored
snapshot. -/
def SelInv (s : ArtBoardState) : Prop :=
  countSelected s.objects ≤ 1 ∧ ∀ snap ∈ s.history, countSelected snap ≤ 1

lemma selInv_addToHistory {s : ArtBoardState}
    (hhist : ∀ snap ∈ s.history, countSelected snap ≤ 1)
    (hobj : countSelected s.objects ≤ 1)
    {objs : List DrawingObject} (hobjs : countSelected objs ≤ 1) :
    SelInv (addToHistory s objs) := by
  refine ⟨hobj, ?_⟩
  intro snap hsnap
  simp only [addToHistory, List.mem_append, List.mem_singleton] at hsnap
  rcases hsnap with h1 | rfl
  · exact hhist _ (List.take_subset _ _ h1)
  · exact hobjs

lemma selInv_handleMouseDown {s : ArtBoardState} (h : SelInv s) (pos : Point) :
    SelInv (handleMouseDown s pos) := by
  obtain ⟨h1, h2⟩ := h
  by_cases ht : s.tool = Tool.select
  · cases hrh : resizeHandleHit s pos with
    | some hIdx =>
      simp only [SelInv, handleMouseDown, ht, eq_self_iff_true, if_true, hrh]
      exact ⟨h1, h2⟩
    | none =>
      cases hfc : findClicked s.objects pos with
      | some idx =>
        simp only [SelInv, handleMouseDown, ht, eq_self_iff_true, if_true, hrh, hfc]
        exact ⟨countSelected_selectOnly_le _ _, h2⟩
      | none =>
        simp only [SelInv, handleMouseDown, ht, eq_self_iff_true, if_true, hrh, hfc]
        refine ⟨?_, h2⟩
        rw [countSelected_deselectAll]
        exact Nat.zero_le 1
  · have hts : (s.tool = Tool.select) = False := eq_false ht
    by_cases he : s.tool = Tool.eraser
    · have hte : (s.tool = Tool.eraser) = True := eq_true he
      by_cases hlen : (s.objects.filter fun o => !hitTestObj pos o).length ≠ s.objects.length
      · simp only [handleMouseDown, hts, hte, if_true, if_false, ite_true, ite_false]
        rw [if_pos hlen]
        apply selInv_addToHistory
        · exact h2
        · exact (countSelected_sublist (List.filter_sublist _)).trans h1
        · exact (countSelected_sublist (List.filter_sublist _)).trans h1
      · simp only [handleMouseDown, hts, hte, if_true, if_false, ite_true, ite_false]
        rw [if_neg hlen]
        exact ⟨h1, h2⟩
    · have hte : (s.tool = Tool.eraser) = False := eq_false he
      simp only [SelInv, handleMouseDown, hts, hte, if_false, ite_false]
      refine ⟨?_, h2⟩
      simpa [countSelected_append, countSelected_cons, countSelected_nil] using h1

lemma selInv_moveSelected {s : ArtBoardState} (h : SelInv s) {i : Nat} {obj : DrawingObject}
    (hget : s.objects.get? i = some obj) (pos start : Point) :
    SelInv (moveSelected s i obj pos start) := by
  obtain ⟨h1, h2⟩ := h
  simp only [SelInv, moveSelected]
  refine ⟨le_trans (le_of_eq (countSelected_set ?_)) h1, h2⟩
  intro v hv
  rw [hget] at hv
  injection hv with hv
  subst hv
  rfl

lemma selInv_resizeSelected {s : ArtBoardState} (h : SelInv s) {i : Nat}
    {obj : DrawingObject} (hget : s.objects.get? i = some obj)
    (handle : Nat) (pos start : Point) :
    SelInv (resizeSelected s i obj handle pos start) := by
  obtain ⟨h1, h2⟩ := h
  simp only [SelInv, resizeSelected]
  refine ⟨le_trans (le_of_eq (countSelected_set ?_)) h1, h2⟩
  intro v hv
  rw [hget] at hv
  injection hv with hv
  subst hv
  rfl

lemma selInv_drawMove {s : ArtBoardState} (h : SelInv s) (pos : Point) :
    SelInv (drawMove s pos) := by
  obtain ⟨h1, h2⟩ := h
  cases hlast : s.objects.getLast? with
  | none => simp only [SelInv, drawMove, hlast]; exact ⟨h1, h2⟩
  | some cur =>
    have hget : s.objects.get? (s.objects.length - 1) = some cur := getLast?_get? hlast
    simp only [SelInv, drawMove, hlast]
    refine ⟨le_trans (le_of_eq (countSelected_set ?_)) h1, h2⟩
    intro v hv
    rw [hget] at hv
    injection hv with hv
    subst hv
    rfl

lemma selInv_handleMouseMove {s : ArtBoardState} (h : SelInv s) (pos : Point) :
    SelInv (handleMouseMove s pos) := by
  obtain ⟨h1, h2⟩ := h
  by_cases hd : s.isDrawing
  case neg =>
    simp only [SelInv, handleMouseMove, hd, if_false, ite_false, Bool.false_eq_true]
    exact ⟨h1, h2⟩
  by_cases ht : s.tool = Tool.select
  case neg =>
    simp only [handleMouseMove, hd, ht, eq_self_iff_true, if_true, if_false,
      ite_true, ite_false]
    exact selInv_drawMove ⟨h1, h2⟩ pos
  cases hsel : s.selectedObject with
  | none =>
    simp only [SelInv, handleMouseMove, hd, ht, eq_self_iff_true, if_true, ite_true, hsel]
    exact ⟨h1, h2⟩
  | some i =>
    cases hget : s.objects.get? i with
    | none =>
      simp only [SelInv, handleMouseMove, hd, ht, eq_self_iff_true, if_true, ite_true,
        hsel, hget]
      cases s.startPos <;> exact ⟨h1, h2⟩
    | some obj =>
      cases hsp : s.startPos with
      | none =>
        simp only [SelInv, handleMouseMove, hd, ht, eq_self_iff_true, if_true, ite_true,
          hsel, hget, hsp]
        exact ⟨h1, h2⟩
      | some start =>
        cases hrh : s.resizeHandle with
        | some handle =>
          simp only [handleMouseMove, hd, ht, eq_self_iff_true, if_true, ite_true,
            hsel, hget, hsp, hrh]
          exact selInv_resizeSelected ⟨h1, h2⟩ hget handle pos start
        | none =>
          simp only [handleMouseMove, hd, ht, eq_self_iff_true, if_true, ite_true,
            hsel, hget, hsp, hrh]
          exact selInv_moveSelected ⟨h1, h2⟩ hget pos start

lemma selInv_handleMouseUp {s : ArtBoardState} (h : SelInv s) : SelInv (handleMouseUp s) := by
  have hbase : SelInv (if s.isDrawing then addToHistory s s.objects else s) := by
    by_cases hd : s.isDrawing
    · rw [if_pos hd]; exact selInv_addToHistory h.2 h.1 h.1
    · rw [if_neg hd]; exact h
  unfold handleMouseUp
  by_cases ht : s.tool ≠ Tool.select
  · rw [if_pos ht]
    refine ⟨?_, hbase.2⟩
    rw [countSelected_deselectAll]
    exact Nat.zero_le 1
  · rw [if_neg ht]
    exact ⟨hbase.1, hbase.2⟩

lemma selInv_undo {s : ArtBoardState} (h : SelInv s) : SelInv (undo s) := by
  obtain ⟨h1, h2⟩ := h
  unfold undo
  by_cases hc : 0 < s.historyIndex
  · rw [if_pos hc]
    exact ⟨countSelected_getD_le h2, h2⟩
  · rw [if_neg hc]
    exact ⟨h1, h2⟩

lemma selInv_redo {s : ArtBoardState} (h : SelInv s) : SelInv (redo s) := by
  obtain ⟨h1, h2⟩ := h
  unfold redo
  by_cases hc : s.historyIndex < (s.history.length : Int) - 1
  · rw [if_pos hc]
    exact ⟨countSelected_getD_le h2, h2⟩
  · rw [if_neg hc]
    exact ⟨h1, h2⟩

lemma selInv_handleDelete {s : ArtBoardState} (h : SelInv s) : SelInv (handleDelete s) := by
  obtain ⟨h1, h2⟩ := h
  simp only [SelInv, handleDelete]
  cases hsel : s.selectedObject with
  | none => exact ⟨h1, h2⟩
  | some i =>
    apply selInv_addToHistory
    · exact h2
    · exact (countSelected_sublist (List.eraseIdx_sublist _ _)).trans h1
    · exact (countSelected_sublist (List.eraseIdx_sublist _ _)).trans h1

lemma selInv_handleClearCanvas {s : ArtBoardState} (h : SelInv s) :
    SelInv (handleClearCanvas s) := by
  obtain ⟨h1, h2⟩ := h
  unfold handleClearCanvas
  by_cases hc : s.objects.length > 0
  · rw [if_pos hc]
    apply selInv_addToHistory
    · exact h2
    · exact Nat.zero_le 1
    · exact Nat.zero_le 1
  · rw [if_neg hc]
    exact ⟨h1, h2⟩

lemma selInv_step {s : ArtBoardState} (h : SelInv s) (e : Event) : SelInv (step s e) := by
  cases e with
  | down pos => exact selInv_handleMouseDown h pos
  | move pos => exact selInv_handleMouseMove h pos
  | up => exact selInv_handleMouseUp h
  | undoEv => exact selInv_undo h
  | redoEv => exact selInv_redo h
  | setTool t => exact ⟨h.1, h.2⟩
  | setColor c => exact ⟨h.1, h.2⟩
  | setWidth w => exact ⟨h.1, h.2⟩
  | deleteSelected => exact selInv_handleDelete h
  | clearAll => exact selInv_handleClearCanvas h

/-- The at-most-one-selected invariant holds in every reachable state. -/
lemma selInv_run (evs : List Event) : SelInv (run initState evs) := by
  have hinit : SelInv initState :=
    ⟨Nat.zero_le 1, fun snap hsnap => absurd hsnap (List.not_mem_nil _)⟩
  suffices hgen : ∀ s, SelInv s → SelInv (run s evs) from hgen initState hinit
  induction evs with
  | nil => exact fun s hs => hs
  | cons e t ih => exact fun s hs => ih (step s e) (selInv_step hs e)

/-- C6: in every reachable state at most one object is selected, and
immediately after a successful select-tool hit (no resize handle hit, hit
test returns an index) exactly one object is selected — the hit one — while
every other object's selected flag is false. -/
theorem C6_selection (evs : List Event) :
    countSelected (run initState evs).objects ≤ 1 ∧
    ∀ pos idx, (run initState evs).tool = Tool.select →
      resizeHandleHit (run initState evs) pos = none →
      findClicked (run initState evs).objects pos = some idx →
      countSelected (step (run initState evs) (Event.down pos)).objects = 1 ∧
      ∀ j, ((step (run initState evs) (Event.down pos)).objects.get? j).map
          (fun o => o.selected) =
        ((run initState evs).objects.get? j).map fun _ => j == idx := by
  have hinv := selInv_run evs
  refine ⟨hinv.1, ?_⟩
  intro pos idx ht hrh hfc
  constructor
  · simp only [step, handleMouseDown, ht, eq_self_iff_true, if_true, hrh, hfc]
    exact countSelected_selectOnly (findClicked_lt hfc)
  · intro j
    simp only [step, handleMouseDown, ht, eq_self_iff_true, if_true, hrh, hfc]
    rw [selectOnly, selectOnlyFrom_get? idx (run initState evs).objects 0 j]
    cases (run initState evs).objects.get? j <;> simp

/-- The event trace of the C6 witness: draw a rectangle, then switch to the
select tool. -/
def evsC6 : List Event :=
  [Event.setTool Tool.rect, Event.down ⟨10, 10⟩, Event.move ⟨30, 30⟩, Event.up,
   Event.setTool Tool.select]

/-- Witness for C6_selection: clicking (20,20) hits the drawn rectangle. -/
theorem C6_selection_witness :
    countSelected (step (run initState evsC6) (Event.down ⟨20, 20⟩)).objects = 1 ∧
    ∀ j, ((step (run initState evsC6) (Event.down ⟨20, 20⟩)).objects.get? j).map
        (fun o => o.selected) =
      ((run initState evsC6).objects.get? j).map fun _ => j == 0 :=
  (C6_selection evsC6).2 ⟨20, 20⟩ 0 (by decide) (by decide)
    (by norm_num +decide [evsC6, run, step, initState, handleMouseDown, handleMouseMove,
      handleMouseUp, drawMove, addToHistory, deselectAll, resizeHandleHit, findClicked,
      hitTestObj, inBounds, toolShape, calculateBounds, minList, maxList])

/-- No object in the scene is selected. -/
def allUnselected (objs : List DrawingObject) : Prop :=
  ∀ o ∈ objs, o.selected = false

/-- State shape between completed gestures: the cursor addresses the last
snapshot and nothing is selected. -/
structure Ready (s : ArtBoardState) : Prop where
  idx : s.historyIndex = (s.history.length : Int) - 1
  flags : allUnselected s.objects

/-- Mid-gesture invariant while drawing with tool t: tool, history and cursor
are frozen, isDrawing is set, and nothing is selected. -/
structure Mid (t : Tool) (hist : List (List DrawingObject)) (i : Int)
    (s : ArtBoardState) : Prop where
  tool : s.tool = t
  history : s.history = hist
  idx : s.historyIndex = i
  drawing : s.isDrawing = true
  flags : allUnselected s.objects

lemma allUnselected_set {l : List DrawingObject} {i : Nat} {o : DrawingObject}
    (hall : allUnselected l) (ho : o.selected = false) : allUnselected (l.set i o) :=
  fun x hx => (List.mem_or_eq_of_mem_set hx).elim (hall x) fun h => h ▸ ho

lemma deselect_eq_self {o : DrawingObject} (h : o.selected = false) :
    { o with selected := false } = o := by
  cases o
  simp_all

lemma deselectAll_id {l : List DrawingObject} (h : allUnselected l) : deselectAll l = l := by
  induction l with
  | nil => rfl
  | cons o t ih =>
    simp only [deselectAll, List.map_cons]
    rw [deselect_eq_self (h o (List.mem_cons_self o t))]
    have := ih fun x hx => h x (List.mem_cons_of_mem o hx)
    simp only [deselectAll] at this
    rw [this]

lemma mid_down {s : ArtBoardState} (pos : Point) (hts : s.tool ≠ Tool.select)
    (hte : s.tool ≠ Tool.eraser) (hflags : allUnselected s.objects) :
    Mid s.tool s.history s.historyIndex (step s (Event.down pos)) := by
  have hts0 : (s.tool = Tool.select) = False := eq_false hts
  have hte0 : (s.tool = Tool.eraser) = False := eq_false hte
  simp only [step, handleMouseDown, hts0, hte0, if_false, ite_false]
  refine ⟨rfl, rfl, rfl, rfl, ?_⟩
  intro o ho
  rcases List.mem_append.mp ho with h | h
  · exact hflags o h
  · rw [List.mem_singleton.mp h]

lemma mid_move {t : Tool} {hist : List (List DrawingObject)} {i : Int}
    {s : ArtBoardState} (h : Mid t hist i s) (ht : t ≠ Tool.select) (pos : Point) :
    Mid t hist i (step s (Event.move pos)) := by
  obtain ⟨h1, h2, h3, h4, h5⟩ := h
  have hts0 : (s.tool = Tool.select) = False := eq_false (by rw [h1]; exact ht)
  simp only [step, handleMouseMove, h4, eq_self_iff_true, if_true, ite_true, hts0,
    if_false, ite_false]
  cases hlast : s.objects.getLast? with
  | none =>
    simp only [drawMove, hlast]
    exact ⟨h1, h2, h3, h4, h5⟩
  | some cur =>
    have hcur : cur ∈ s.objects := List.get?_mem (getLast?_get? hlast)
    simp only [drawMove, hlast]
    exact ⟨h1, h2, h3, h4, allUnselected_set h5 (h5 cur hcur)⟩

lemma mid_moves (ps : List Point) {t : Tool} {hist : List (List DrawingObject)} {i : Int} :
    ∀ {s : ArtBoardState}, Mid t hist i s → t ≠ Tool.select →
      Mid t hist i (run s (ps.map Event.move)) := by
  induction ps with
  | nil => intro s h _; exact h
  | cons p rest ih => intro s h ht; exact ih (mid_move h ht p) ht

lemma up_spec {t : Tool} {hist : List (List DrawingObject)} {i : Int}
    {s : ArtBoardState} (h : Mid t hist i s) (ht : t ≠ Tool.select)
    (hidx : i = (hist.length : Int) - 1) :
    (step s Event.up).history = hist ++ [s.objects] ∧
    (step s Event.up).historyIndex = i + 1 ∧
    (step s Event.up).objects = s.objects ∧
    allUnselected (step s Event.up).objects := by
  obtain ⟨h1, h2, h3, h4, h5⟩ := h
  have hts : s.tool ≠ Tool.select := by rw [h1]; exact ht
  have htake : s.history.take (s.historyIndex + 1).toNat = s.history := by
    rw [h3, hidx, h2]
    have heq : ((hist.length : Int) - 1 + 1).toNat = hist.length := by omega
    rw [heq, List.take_length]
  have hds : deselectAll s.objects = s.objects := deselectAll_id h5
  simp only [step, handleMouseUp, h4, eq_self_iff_true, if_true, ite_true, addToHistory]
  rw [if_pos hts]
  refine ⟨?_, ?_, ?_, ?_⟩
  · simp only []
    rw [htake, h2]
  · simp only []
    rw [h3]
  · simp only []
    exact hds
  · simp only []
    rw [hds]
    exact h5

lemma runGesture_spec {s : ArtBoardState} (hs : Ready s) {g : DrawGesture}
    (hd : isDrawTool g.tool) :
    (runGesture s g).history = s.history ++ [(runGesture s g).objects] ∧
    Ready (runGesture s g) := by
  obtain ⟨hidx, hflags⟩ := hs
  obtain ⟨hd1, hd2⟩ := hd
  have hmid0 : Mid g.tool s.history s.historyIndex
      (step (step s (Event.setTool g.tool)) (Event.down g.start)) :=
    mid_down (s := step s (Event.setTool g.tool)) g.start hd1 hd2 hflags
  have hmid : Mid g.tool s.history s.historyIndex
      (run (step (step s (Event.setTool g.tool)) (Event.down g.start))
        (g.moves.map Event.move)) :=
    mid_moves g.moves hmid0 hd1
  have hfin := up_spec hmid hd1 hidx
  have hrg : runGesture s g =
      step (run (step (step s (Event.setTool g.tool)) (Event.down g.start))
        (g.moves.map Event.move)) Event.up := by
    simp only [runGesture, gestureEvents, run, List.foldl_cons, List.foldl_append,
      List.foldl_nil]
  rw [hrg]
  obtain ⟨hh, hii, hoo, hff⟩ := hfin
  refine ⟨by rw [hh, hoo], ⟨?_, hff⟩⟩
  rw [hii, hh]
  simp only [List.length_append, List.length_cons, List.length_nil]
  omega

lemma sceneTrace_length : ∀ (gs : List DrawGesture) (s : ArtBoardState),
    (sceneTrace s gs).length = gs.length := by
  intro gs
  induction gs with
  | nil => intro s; rfl
  | cons g rest ih => intro s; simp [sceneTrace, ih]

lemma runGestures_spec :
    ∀ (gs : List DrawGesture) (s : ArtBoardState), Ready s →
      (∀ g ∈ gs, isDrawTool g.tool) →
      Ready (runGestures s gs) ∧
      (runGestures s gs).history = s.history ++ sceneTrace s gs ∧
      (runGestures s gs).objects = (sceneTrace s gs).getLastD s.objects := by
  intro gs
  induction gs with
  | nil =>
    intro s hs _
    exact ⟨hs, by simp [runGestures, sceneTrace], by simp [runGestures, sceneTrace]⟩
  | cons g rest ih =>
    intro s hs hall
    have hg := runGesture_spec hs (hall g (List.mem_cons_self g rest))
    have hrest := ih (runGesture s g) hg.2 fun x hx => hall x (List.mem_cons_of_mem g hx)
    refine ⟨hrest.1, ?_, ?_⟩
    · simp only [runGestures, sceneTrace]
      rw [hrest.2.1, hg.1, List.append_assoc, List.singleton_append]
    · simp only [runGestures, sceneTrace]
      rw [List.getLastD_cons]
      exact hrest.2.2

lemma getD_default_irrel (l : List (List DrawingObject)) (n : Nat) (hn : n < l.length)
    (d1 d2 : List DrawingObject) : l.getD n d1 = l.getD n d2 := by
  rw [List.getD_eq_getElem _ _ hn, List.getD_eq_getElem _ _ hn]

lemma getLastD_eq_getD : ∀ (l : List (List DrawingObject)) (a d : List DrawingObject),
    (a :: l).getLastD d = (a :: l).getD l.length d := by
  intro l
  induction l with
  | nil => intro a d; rfl
  | cons b u ih =>
    intro a d
    rw [List.getLastD_cons, ih b a]
    have h1 : (a :: b :: u).getD (u.length + 1) d = (b :: u).getD u.length d := rfl
    rw [List.length_cons, h1]
    exact getD_default_irrel _ _ (by simp) a d

lemma undoN_spec :
    ∀ (k : Nat) (s : ArtBoardState) (snaps : List (List DrawingObject)) (i : Int),
      s.history = snaps → s.historyIndex = i → 0 ≤ i → i < (snaps.length : Int) →
      s.objects = snaps.getD i.toNat [] →
      (undoN k s).history = snaps ∧
      (undoN k s).historyIndex = max 0 (i - k) ∧
      (undoN k s).objects = snaps.getD (max 0 (i - k)).toNat [] := by
  intro k
  induction k with
  | zero =>
    intro s snaps i h1 h2 h3 h4 h5
    refine ⟨h1, ?_, ?_⟩
    · rw [undoN, h2]; omega
    · rw [undoN, h5]
      congr 1
      omega
  | succ k ih =>
    intro s snaps i h1 h2 h3 h4 h5
    have hstep : undoN (k + 1) s = undoN k (undo s) := rfl
    by_cases hc : 0 < i
    · have e1 : (undo s).history = snaps := by
        unfold undo
        rw [if_pos (by rw [h2]; exact hc)]
        exact h1
      have e2 : (undo s).historyIndex = i - 1 := by
        unfold undo
        rw [if_pos (by rw [h2]; exact hc)]
        simp only []
        rw [h2]
      have e3 : (undo s).objects = snaps.getD (i - 1).toNat [] := by
        unfold undo
        rw [if_pos (by rw [h2]; exact hc)]
        simp only []
        rw [h1, h2]
      have hres := ih (undo s) snaps (i - 1) e1 e2 (by omega) (by omega) e3
      rw [hstep]
      refine ⟨hres.1, by rw [hres.2.1]; omega, ?_⟩
      rw [hres.2.2]
      congr 1
      omega
    · have hundo : undo s = s := by
        unfold undo
        rw [if_neg (by rw [h2]; omega)]
      have hres := ih (undo s) snaps i (by rw [hundo]; exact h1) (by rw [hundo]; exact h2)
        h3 h4 (by rw [hundo]; exact h5)
      rw [hstep]
      refine ⟨hres.1, by rw [hres.2.1]; omega, ?_⟩
      rw [hres.2.2]
      congr 1
      omega

lemma redoN_spec :
    ∀ (k : Nat) (s : ArtBoardState) (snaps : List (List DrawingObject)) (i : Int),
      s.history = snaps → s.historyIndex = i → 0 ≤ i → i ≤ (snaps.length : Int) - 1 →
      s.objects = snaps.getD i.toNat [] →
      (redoN k s).history = snaps ∧
      (redoN k s).historyIndex = min ((snaps.length : Int) - 1) (i + k) ∧
      (redoN k s).objects = snaps.getD (min ((snaps.length : Int) - 1) (i + k)).toNat [] := by
  intro k
  induction k with
  | zero =>
    intro s snaps i h1 h2 h3 h4 h5
    refine ⟨h1, ?_, ?_⟩
    · rw [redoN, h2]; omega
    · rw [redoN, h5]
      congr 1
      omega
  | succ k ih =>
    intro s snaps i h1 h2 h3 h4 h5
    have hstep : redoN (k + 1) s = redoN k (redo s) := rfl
    by_cases hc : i < (snaps.length : Int) - 1
    · have hcond : s.historyIndex < (s.history.length : Int) - 1 := by
        rw [h1, h2]; exact hc
      have e1 : (redo s).history = snaps := by
        unfold redo
        rw [if_pos hcond]
        exact h1
      have e2 : (redo s).historyIndex = i + 1 := by
        unfold redo
        rw [if_pos hcond]
        simp only []
        rw [h2]
      have e3 : (redo s).objects = snaps.getD (i + 1).toNat [] := by
        unfold redo
        rw [if_pos hcond]
        simp only []
        rw [h1, h2]
      have hres := ih (redo s) snaps (i + 1) e1 e2 (by omega) (by omega) e3
      rw [hstep]
      refine ⟨hres.1, by rw [hres.2.1]; omega, ?_⟩
      rw [hres.2.2]
      congr 1
      omega
    · have hredo : redo s = s := by
        unfold redo
        rw [if_neg (by rw [h1, h2]; omega)]
      have hres := ih (redo s) snaps i (by rw [hredo]; exact h1) (by rw [hredo]; exact h2)
        h3 h4 (by rw [hredo]; exact h5)
      rw [hstep]
      refine ⟨hres.1, by rw [hres.2.1]; omega, ?_⟩
      rw [hres.2.2]
      congr 1
      omega

/-- C1 counterexample precision lemma is above (C1_counterexample); here is the
amended round trip.  C1 (amended): for every nonempty sequence of completed
draw gestures from the empty initial state, N undos return the Scene to the
state after the FIRST gesture (the empty Scene is never in the history), and
N redos then restore the final Scene. -/
theorem C1_undo_redo (gs : List DrawGesture) (hne : gs ≠ [])
    (hdraw : ∀ g ∈ gs, isDrawTool g.tool) :
    (undoN gs.length (runGestures initState gs)).objects =
      (runGestures initState (gs.take 1)).objects ∧
    (redoN gs.length (undoN gs.length (runGestures initState gs))).objects =
      (runGestures initState gs).objects := by
  have hready : Ready initState :=
    ⟨by decide, fun o ho => absurd ho (List.not_mem_nil o)⟩
  obtain ⟨hR, hhist, hobjs⟩ := runGestures_spec gs initState hready hdraw
  obtain ⟨g, rest, rfl⟩ := List.exists_cons_of_ne_nil hne
  have hlen : (sceneTrace initState (g :: rest)).length = (g :: rest).length :=
    sceneTrace_length (g :: rest) initState
  have hh : (runGestures initState (g :: rest)).history =
      sceneTrace initState (g :: rest) := by
    rw [hhist]
    rfl
  have hcons : sceneTrace initState (g :: rest) =
      (runGesture initState g).objects ::
        sceneTrace (runGesture initState g) rest := rfl
  have hlen2 : (sceneTrace (runGesture initState g) rest).length = rest.length :=
    sceneTrace_length rest (runGesture initState g)
  have hidx : (runGestures initState (g :: rest)).historyIndex =
      ((sceneTrace initState (g :: rest)).length : Int) - 1 := by
    rw [hR.idx, hh]
  have htn : (((sceneTrace initState (g :: rest)).length : Int) - 1).toNat =
      (sceneTrace (runGesture initState g) rest).length := by
    rw [hcons]
    simp only [List.length_cons]
    omega
  have hobj : (runGestures initState (g :: rest)).objects =
      (sceneTrace initState (g :: rest)).getD
        (((sceneTrace initState (g :: rest)).length : Int) - 1).toNat [] := by
    rw [hobjs, htn, hcons]
    exact getLastD_eq_getD (sceneTrace (runGesture initState g) rest)
      (runGesture initState g).objects []
  have hpos : (0 : Int) ≤ ((sceneTrace initState (g :: rest)).length : Int) - 1 := by
    rw [hcons]
    simp only [List.length_cons]
    omega
  obtain ⟨u1, u2, u3⟩ := undoN_spec (g :: rest).length (runGestures initState (g :: rest))
    (sceneTrace initState (g :: rest)) (((sceneTrace initState (g :: rest)).length : Int) - 1)
    hh hidx hpos (by omega) hobj
  have hmax : max 0 ((((sceneTrace initState (g :: rest)).length : Int) - 1) -
      (g :: rest).length) = 0 := by
    rw [hlen]
    omega
  constructor
  · rw [u3, hmax]
    have hget0 : (sceneTrace initState (g :: rest)).getD ((0 : Int)).toNat [] =
        (runGesture initState g).objects := by
      rw [hcons]
      rfl
    rw [hget0]
    rfl
  · have hu2 : (undoN (g :: rest).length (runGestures initState (g :: rest))).historyIndex =
        (0 : Int) := by rw [u2, hmax]
    have hu3 : (undoN (g :: rest).length (runGestures initState (g :: rest))).objects =
        (sceneTrace initState (g :: rest)).getD ((0 : Int)).toNat [] := by
      rw [u3, hmax]
    obtain ⟨r1, r2, r3⟩ := redoN_spec (g :: rest).length
      (undoN (g :: rest).length (runGestures initState (g :: rest)))
      (sceneTrace initState (g :: rest)) 0 u1 hu2 le_rfl (by omega) hu3
    rw [r3]
    have hmin : min (((sceneTrace initState (g :: rest)).length : Int) - 1)
        ((0 : Int) + (g :: rest).length) =
        ((sceneTrace initState (g :: rest)).length : Int) - 1 := by
      rw [hlen]
      omega
    rw [hmin]
    exact hobj.symm

/-- The two concrete gestures of the C1 witness. -/
def gsC1 : List DrawGesture :=
  [⟨Tool.brush, ⟨0, 0⟩, [⟨10, 10⟩]⟩, ⟨Tool.rect, ⟨20, 20⟩, [⟨30, 30⟩]⟩]

/-- Witness for C1_undo_redo at the two-gesture trace gsC1. -/
theorem C1_undo_redo_witness :
    (undoN gsC1.length (runGestures initState gsC1)).objects =
      (runGestures initState (gsC1.take 1)).objects ∧
    (redoN gsC1.length (undoN gsC1.length (runGestures initState gsC1))).objects =
      (runGestures initState gsC1).objects :=
  C1_undo_redo gsC1 (List.cons_ne_nil _ _)
    (by
      intro g hg
      simp only [gsC1, List.mem_cons, List.mem_singleton] at hg
      rcases hg with rfl | rfl | h
      · exact ⟨by decide, by decide⟩
      · exact ⟨by decide, by decide⟩
      · exact absurd h (List.not_mem_nil _))

end ArtBoard
